import Mathlib

/-!
Verification of the Exclusive-Zone Proximity Matcher of this repository
(class `ProximityAnalyzer` in `src/core/analyzer.py`).

Shallow embedding conventions:

* Distances and band widths are modelled as rationals (`ℚ`); the claims under
  study are about control flow and order comparisons, not float rounding.
* The host GIS engine (QGIS) is an external collaborator.  Its geometric
  operations (spatial-index query, buffer/geometry intersection, planar
  distance, ellipsoidal centroid-to-centroid distance) are modelled as an
  explicit environment `Env` of functions keyed by the identifiers the code
  passes around (band width, source feature id, target layer id, target
  feature id).  Fallible operations return `Except String`, mirroring the
  `try/except` blocks of the Python code.
* The Python dict key `f"{target_layer.id()}_{feat_id}"` is modelled as the
  pair `(target_layer.id, feat_id)`.  Since the feature id is rendered as a
  decimal numeral (no underscore), splitting the string at its last
  underscore recovers both components, so the string encoding is injective
  and the pair is a faithful model of the key.
* A null or missing geometry (`not target_geom or target_geom.isNull()`)
  is modelled as `geom = none`; a valid geometry carries an opaque handle.
* Logging (`self.log_message`) is an I/O side effect with no influence on
  the data flow and is not modelled.
-/

/-- Key of the `processed_features` dict: (target layer id, target feature id). -/
abbrev ProcKey := String × Nat

/-- The `processed_features` dict, as an association list (newest binding first). -/
abbrev ProcMap := List (ProcKey × ℚ)

/-- Dict lookup on the processed-features map. -/
def procLookup : ProcMap → ProcKey → Option ℚ
  | [], _ => none
  | (k, v) :: rest, key => if k = key then some v else procLookup rest key

/-- Dict insertion `self.processed_features[feature_key] = buffer_distance`.
The analyzer only ever inserts a key that is absent (it checks membership
first), so cons insertion never shadows an existing binding. -/
def procInsert (m : ProcMap) (k : ProcKey) (v : ℚ) : ProcMap := (k, v) :: m

/-- A source feature (`source_feature`): its feature id. Its geometry enters the
model only through the environment functions keyed by this id. -/
structure SourceFeature where
  sid : Nat
deriving DecidableEq

/-- The source layer: its display name and whether its geometry type is
point (`source_layer.geometryType() == QgsWkbTypes.PointGeometry`). -/
structure SourceLayer where
  name : String
  isPointGeom : Bool
deriving DecidableEq

/-- A target feature: feature id, geometry (none models null/empty), and its
attribute values keyed by field name (`target_feature[field_name]`). -/
structure TargetFeature where
  fid : Nat
  geom : Option String
  attrs : List (String × String)
deriving DecidableEq

/-- A target layer: id (`target_layer.id()`), display name
(`target_layer.name()`), point-geometry flag, and its feature collection. -/
structure TargetLayer where
  layerId : String
  name : String
  isPointGeom : Bool
  features : List TargetFeature
deriving DecidableEq

/-- Lookup of `target_layer.getFeature(feat_id)`; `none` models the invalid
feature QGIS returns for an unknown id (its geometry is null). -/
def getFeature (tL : TargetLayer) (fid : Nat) : Option TargetFeature :=
  tL.features.find? (fun tf => tf.fid == fid)

/-- The host GIS engine, keyed by (band width, source id, layer id, feature id):
`indexQuery` models building `QgsSpatialIndex(target_layer.getFeatures())` and
querying `spatial_index.intersects(buffer_bbox)` for the buffer of the given
source at the given radius (an `error` models an exception raised there);
`intersects` models `buffer_geom.intersects(target_geom)`;
`planarDistance` models `source_feature.geometry().distance(target_geom)`;
`ellipsoidalDistance` models `distance_calc.measureLine(...)` between the two
centroids.  The two distance functions may raise, modelled by `Except`. -/
structure Env where
  indexQuery : ℚ → Nat → String → Except String (List Nat)
  intersects : ℚ → Nat → String → Nat → Bool
  planarDistance : Nat → String → Nat → Except String ℚ
  ellipsoidalDistance : Nat → String → Nat → Except String ℚ

/-- Body of the `try` block computing `actual_distance` (analyzer.py lines
342-349): first the planar geometry-to-geometry distance; then, if either
layer has point geometry, the ellipsoidal centroid-to-centroid measurement
replaces it.  An exception anywhere inside propagates as `error`. -/
def measureTry (env : Env) (sL : SourceLayer) (tL : TargetLayer)
    (sid fid : Nat) : Except String ℚ :=
  match env.planarDistance sid tL.layerId fid with
  | .error e => .error e
  | .ok d =>
    if sL.isPointGeom || tL.isPointGeom then
      env.ellipsoidalDistance sid tL.layerId fid
    else
      .ok d

/-- The measured distance including the `except` fallback (lines 350-352):
on any error the code logs a warning and substitutes `0.0`. -/
def measureDistance (env : Env) (sL : SourceLayer) (tL : TargetLayer)
    (sid fid : Nat) : ℚ :=
  match measureTry env sL tL sid fid with
  | .ok d => d
  | .error _ => 0

/-- Character-list helper: does the second list start with the first? -/
def charsMatchAt : List Char → List Char → Bool
  | [], _ => true
  | _ :: _, [] => false
  | a :: as, b :: bs => a == b && charsMatchAt as bs

/-- Character-list helper: does the pattern occur anywhere in the list? -/
def charsContain (pat : List Char) : List Char → Bool
  | [] => charsMatchAt pat []
  | b :: bs => charsMatchAt pat (b :: bs) || charsContain pat bs

/-- Substring test, modelling Python `'name' in field_name.lower()`. -/
def strContains (s pat : String) : Bool := charsContain pat.data s.data

/-- The `feature_name` selection loop (lines 362-371): the value of the first
field whose lowercased name contains "name" is taken, with falsy values
replaced by the empty string; later fields cannot override a nonempty pick. -/
def pickFeatureName (attrs : List (String × String)) : String :=
  attrs.foldl
    (fun acc kv =>
      if acc == "" && strContains kv.1.toLower "name" then
        (if kv.2 == "" then "" else kv.2)
      else acc)
    ""

/-- A Match Record, the `result` dict built at lines 375-386. -/
structure MatchRecord where
  source_id : Nat
  source_layer : String
  target_layer : String
  target_id : Nat
  feature_name : String
  distance : ℚ
  buffer_distance : ℚ
  zone : String
  attributes : List (String × String)
  geometry : String
deriving DecidableEq

/-- The record literal of lines 375-386, for an accepted target feature `tf`
with geometry handle `g`. -/
def recordFor (env : Env) (sL : SourceLayer) (src : SourceFeature)
    (tL : TargetLayer) (buffer_distance : ℚ) (tf : TargetFeature)
    (g : String) : MatchRecord :=
  { source_id := src.sid
    source_layer := sL.name
    target_layer := tL.name
    target_id := tf.fid
    feature_name := pickFeatureName tf.attrs
    distance := measureDistance env sL tL src.sid tf.fid
    buffer_distance := buffer_distance
    zone := toString buffer_distance ++ "m zone"
    attributes := tf.attrs
    geometry := g }

/-- One iteration of the candidate loop (lines 326-388): skip on null
geometry, skip if the key is already in `processed_features`, test
intersection, measure the distance (with the 0.0 fallback), and on
`actual_distance <= buffer_distance` insert the key and append the record. -/
def acceptCandidate (env : Env) (sL : SourceLayer) (src : SourceFeature)
    (tL : TargetLayer) (buffer_distance : ℚ)
    (acc : List MatchRecord × ProcMap) (fid : Nat) :
    List MatchRecord × ProcMap :=
  let (results, processed) := acc
  match getFeature tL fid with
  | none => (results, processed)
  | some tf =>
    match tf.geom with
    | none => (results, processed)
    | some g =>
      let feature_key : ProcKey := (tL.layerId, fid)
      if (procLookup processed feature_key).isSome then
        (results, processed)
      else if env.intersects buffer_distance src.sid tL.layerId fid then
        let actual_distance := measureDistance env sL tL src.sid fid
        if actual_distance ≤ buffer_distance then
          (results ++ [recordFor env sL src tL buffer_distance tf g],
           procInsert processed feature_key buffer_distance)
        else
          (results, processed)
      else
        (results, processed)

/-- The method `find_features_in_buffer` (lines 316-393).  It reads and
updates `self.processed_features`, so it takes the map and returns the new
one alongside the result list.  An enumeration failure of the spatial index
is caught by the outer `try`, logged, and yields the empty result list with
the map untouched. -/
def find_features_in_buffer (env : Env) (sL : SourceLayer)
    (src : SourceFeature) (tL : TargetLayer) (buffer_distance : ℚ)
    (processed : ProcMap) : List MatchRecord × ProcMap :=
  match env.indexQuery buffer_distance src.sid tL.layerId with
  | .error _ => ([], processed)
  | .ok candidate_ids =>
    candidate_ids.foldl (acceptCandidate env sL src tL buffer_distance)
      ([], processed)

/-- The analyzer state the matcher mutates: `self.processed_features` and the
accumulated result collection `self.results` (extended by
`add_features_to_output` with each invocation's results). -/
structure AState where
  processed_features : ProcMap
  results : List MatchRecord

/-- Body of the inner loop of `analyze_distance` (lines 290-312): one
`find_features_in_buffer` invocation for one (source feature, target layer)
pair, whose results are appended to the output collection. -/
def layerStep (env : Env) (sL : SourceLayer) (src : SourceFeature)
    (distance : ℚ) (st : AState) (tL : TargetLayer) : AState :=
  let r := find_features_in_buffer env sL src tL distance
    st.processed_features
  ⟨r.2, st.results ++ r.1⟩

/-- Body of the outer loop of `analyze_distance` (lines 285-312): one source
feature against every target layer. -/
def sourceStep (env : Env) (sL : SourceLayer) (targets : List TargetLayer)
    (distance : ℚ) (st : AState) (src : SourceFeature) : AState :=
  targets.foldl (layerStep env sL src distance) st

/-- The method `analyze_distance` (lines 269-314): for each source feature,
for each target layer, run `find_features_in_buffer` and append its results. -/
def analyze_distance (env : Env) (sL : SourceLayer)
    (sources : List SourceFeature) (targets : List TargetLayer)
    (distance : ℚ) (st : AState) : AState :=
  sources.foldl (sourceStep env sL targets distance) st

/-- The band loop of `run_analysis` (lines 124-130) over an explicit band
list, starting from an explicit state. -/
def processBands (env : Env) (sL : SourceLayer)
    (sources : List SourceFeature) (targets : List TargetLayer)
    (bands : List ℚ) (st : AState) : AState :=
  bands.foldl (fun st d => analyze_distance env sL sources targets d st) st

/-- The state a fresh `ProximityAnalyzer` starts from (its constructor sets
`self.processed_features = {}` and `self.results = []`). -/
def initState : AState := ⟨[], []⟩

/-- The matcher core of `run_analysis` (lines 63-130): sort the configured
distances ascending (`sorted(self.params['distances'])`) and process each
band in order, starting from the fresh constructor state. -/
def run_analysis (env : Env) (sL : SourceLayer)
    (sources : List SourceFeature) (targets : List TargetLayer)
    (distances : List ℚ) : AState :=
  processBands env sL sources targets
    (List.insertionSort (fun a b => a ≤ b) distances) initState

/-- A target feature `fid` of layer `tl` qualifies at band `d` for source `s`
when the spatial-index enumeration succeeds and lists it, its geometry is
valid, it intersects the buffer, and its measured distance is at most `d` —
exactly the conditions under which the candidate loop accepts it when it is
not yet in the Processed-Set. -/
def qualifies (env : Env) (sL : SourceLayer) (d : ℚ) (s : SourceFeature)
    (tl : TargetLayer) (fid : Nat) : Prop :=
  (∃ cands, env.indexQuery d s.sid tl.layerId = .ok cands ∧ fid ∈ cands) ∧
  (∃ tf g, getFeature tl fid = some tf ∧ tf.geom = some g) ∧
  env.intersects d s.sid tl.layerId fid = true ∧
  measureDistance env sL tl s.sid fid ≤ d

/-! ### Basic lemmas about the processed-features map -/

theorem procLookup_insert_self (m : ProcMap) (k : ProcKey) (v : ℚ) :
    procLookup (procInsert m k v) k = some v := by
  simp [procInsert, procLookup]

theorem procLookup_insert_ne (m : ProcMap) {k k' : ProcKey} (v : ℚ)
    (h : k ≠ k') : procLookup (procInsert m k v) k' = procLookup m k' := by
  simp [procInsert, procLookup, h]

theorem procLookup_insert_none {m : ProcMap} {k k' : ProcKey} {v : ℚ}
    (h : procLookup (procInsert m k v) k' = none) : procLookup m k' = none := by
  by_cases hk : k = k' <;> simp [procInsert, procLookup, hk] at h ⊢ <;> exact h

theorem procLookup_eq_none_iff {m : ProcMap} {k : ProcKey} :
    procLookup m k = none ↔ k ∉ m.map Prod.fst := by
  induction m with
  | nil => simp [procLookup]
  | cons kv rest ih =>
    obtain ⟨k', v⟩ := kv
    by_cases hk : k' = k <;> simp [procLookup, hk, ih] <;> tauto

theorem getFeature_fid {tL : TargetLayer} {fid : Nat} {tf : TargetFeature}
    (h : getFeature tL fid = some tf) : tf.fid = fid := by
  unfold getFeature at h
  simpa using List.find?_some h

theorem measureDistance_of_error {env : Env} {sL : SourceLayer}
    {tL : TargetLayer} {sid fid : Nat} {e : String}
    (h : measureTry env sL tL sid fid = .error e) :
    measureDistance env sL tL sid fid = 0 := by
  simp [measureDistance, h]

/-! ### Lemmas about the candidate loop of find_features_in_buffer -/

/-- The candidate loop of `find_features_in_buffer`, with an explicit
candidate list and accumulator. -/
def findLoop (env : Env) (sL : SourceLayer) (src : SourceFeature)
    (tL : TargetLayer) (d : ℚ) (cands : List Nat)
    (acc : List MatchRecord × ProcMap) : List MatchRecord × ProcMap :=
  cands.foldl (acceptCandidate env sL src tL d) acc

theorem findLoop_nil {env sL src tL} {d : ℚ} (acc : List MatchRecord × ProcMap) :
    findLoop env sL src tL d [] acc = acc := rfl

theorem findLoop_cons {env sL src tL} {d : ℚ} (c : Nat) (cs : List Nat)
    (acc : List MatchRecord × ProcMap) :
    findLoop env sL src tL d (c :: cs) acc =
      findLoop env sL src tL d cs (acceptCandidate env sL src tL d acc c) := rfl

theorem find_eq_of_ok {env : Env} {sL src tL} {d : ℚ} {cands : List Nat}
    (proc : ProcMap) (hq : env.indexQuery d src.sid tL.layerId = .ok cands) :
    find_features_in_buffer env sL src tL d proc =
      findLoop env sL src tL d cands ([], proc) := by
  simp [find_features_in_buffer, hq, findLoop]

theorem find_eq_of_error {env : Env} {sL src tL} {d : ℚ} {e : String}
    (proc : ProcMap) (hq : env.indexQuery d src.sid tL.layerId = .error e) :
    find_features_in_buffer env sL src tL d proc = ([], proc) := by
  simp [find_features_in_buffer, hq]

section FindLoop

variable {env : Env} {sL : SourceLayer} {src : SourceFeature}
  {tL : TargetLayer} {d : ℚ}

/-- One candidate either leaves the accumulator unchanged or appends exactly
one record and inserts its key. -/
theorem acceptCandidate_cases (res : List MatchRecord) (proc : ProcMap)
    (fid : Nat) :
    acceptCandidate env sL src tL d (res, proc) fid = (res, proc) ∨
    ∃ tf g, getFeature tL fid = some tf ∧ tf.geom = some g ∧
      procLookup proc (tL.layerId, fid) = none ∧
      env.intersects d src.sid tL.layerId fid = true ∧
      measureDistance env sL tL src.sid fid ≤ d ∧
      acceptCandidate env sL src tL d (res, proc) fid =
        (res ++ [recordFor env sL src tL d tf g],
         procInsert proc (tL.layerId, fid) d) := by
  rcases hf : getFeature tL fid with _ | tf
  · left; simp [acceptCandidate, hf]
  · rcases hg : tf.geom with _ | g
    · left; simp [acceptCandidate, hf, hg]
    · by_cases hk : (procLookup proc (tL.layerId, fid)).isSome
      · left; simp [acceptCandidate, hf, hg, hk]
      · by_cases hi : env.intersects d src.sid tL.layerId fid
        · by_cases hd : measureDistance env sL tL src.sid fid ≤ d
          · right
            refine ⟨tf, g, rfl, hg, Option.not_isSome_iff_eq_none.mp hk, hi, hd, ?_⟩
            simp [acceptCandidate, hf, hg, hk, hi, hd]
          · left; simp [acceptCandidate, hf, hg, hk, hi, hd]
        · left; simp [acceptCandidate, hf, hg, hk, hi]

/-- The result component only ever grows at the tail; the map component does
not depend on the accumulated results. -/
theorem acceptCandidate_prepend (res : List MatchRecord) (proc : ProcMap)
    (fid : Nat) :
    acceptCandidate env sL src tL d (res, proc) fid =
      (res ++ (acceptCandidate env sL src tL d ([], proc) fid).1,
       (acceptCandidate env sL src tL d ([], proc) fid).2) := by
  rcases hf : getFeature tL fid with _ | tf
  · simp [acceptCandidate, hf]
  · rcases hg : tf.geom with _ | g
    · simp [acceptCandidate, hf, hg]
    · by_cases hk : (procLookup proc (tL.layerId, fid)).isSome
      · simp [acceptCandidate, hf, hg, hk]
      · by_cases hi : env.intersects d src.sid tL.layerId fid
        · by_cases hd : measureDistance env sL tL src.sid fid ≤ d
          · simp [acceptCandidate, hf, hg, hk, hi, hd]
          · simp [acceptCandidate, hf, hg, hk, hi, hd]
        · simp [acceptCandidate, hf, hg, hk, hi]

theorem findLoop_prepend : ∀ (cands : List Nat) (res : List MatchRecord)
    (proc : ProcMap),
    findLoop env sL src tL d cands (res, proc) =
      (res ++ (findLoop env sL src tL d cands ([], proc)).1,
       (findLoop env sL src tL d cands ([], proc)).2) := by
  intro cands
  induction cands with
  | nil => intro res proc; simp [findLoop_nil]
  | cons c cs ih =>
    intro res proc
    rw [findLoop_cons, findLoop_cons, acceptCandidate_prepend]
    rcases h : acceptCandidate env sL src tL d ([], proc) c with ⟨res1, proc1⟩
    rw [ih (res ++ res1) proc1, ih res1 proc1, List.append_assoc]

/-- Bindings in the processed map survive the candidate loop unchanged. -/
theorem findLoop_mono : ∀ (cands : List Nat) (res : List MatchRecord)
    (proc : ProcMap) (k : ProcKey) (v : ℚ),
    procLookup proc k = some v →
    procLookup (findLoop env sL src tL d cands (res, proc)).2 k = some v := by
  intro cands
  induction cands with
  | nil => intro res proc k v h; simpa [findLoop_nil]
  | cons c cs ih =>
    intro res proc k v h
    rw [findLoop_cons]
    rcases @acceptCandidate_cases env sL src tL d res proc c with heq | ⟨tf, g, _, _, hk, _, _, heq⟩
    · rw [heq]; exact ih res proc k v h
    · rw [heq]
      refine ih _ _ k v ?_
      rw [procLookup_insert_ne proc d ?_]
      · exact h
      · intro hkk
        rw [hkk, h] at hk
        exact Option.noConfusion hk

/-- New bindings produced by the candidate loop carry the current band width
and belong to a valid-geometry feature of the current target layer. -/
theorem findLoop_newkeys : ∀ (cands : List Nat) (res : List MatchRecord)
    (proc : ProcMap) (k : ProcKey) (v : ℚ),
    procLookup (findLoop env sL src tL d cands (res, proc)).2 k = some v →
    procLookup proc k = some v ∨
      (v = d ∧ k.1 = tL.layerId ∧
        ∃ tf g, getFeature tL k.2 = some tf ∧ tf.geom = some g) := by
  intro cands
  induction cands with
  | nil => intro res proc k v h; left; simpa [findLoop_nil] using h
  | cons c cs ih =>
    intro res proc k v h
    rw [findLoop_cons] at h
    rcases @acceptCandidate_cases env sL src tL d res proc c with heq | ⟨tf, g, hf, hg, hk, _, _, heq⟩
    · rw [heq] at h; exact ih res proc k v h
    · rw [heq] at h
      rcases ih _ _ k v h with h' | h'
      · by_cases hkk : (tL.layerId, c) = k
        · right
          subst hkk
          rw [procLookup_insert_self] at h'
          injection h' with hdv
          exact ⟨hdv.symm, rfl, tf, g, hf, hg⟩
        · left
          rwa [procLookup_insert_ne proc d hkk] at h'
      · right; exact h'

end FindLoop

section FindLoopMore

variable {env : Env} {sL : SourceLayer} {src : SourceFeature}
  {tL : TargetLayer} {d : ℚ}

/-- Every record produced by one candidate loop is the record literal for an
accepted feature of the current layer: valid geometry, key previously absent,
intersecting the buffer, measured distance within the band. -/
theorem findLoop_newres : ∀ (cands : List Nat) (proc : ProcMap)
    (r : MatchRecord), r ∈ (findLoop env sL src tL d cands ([], proc)).1 →
    ∃ tf g, getFeature tL tf.fid = some tf ∧ tf.geom = some g ∧
      r = recordFor env sL src tL d tf g ∧
      procLookup proc (tL.layerId, tf.fid) = none ∧
      tf.fid ∈ cands ∧
      env.intersects d src.sid tL.layerId tf.fid = true ∧
      measureDistance env sL tL src.sid tf.fid ≤ d := by
  intro cands
  induction cands with
  | nil => intro proc r hr; simp [findLoop_nil] at hr
  | cons c cs ih =>
    intro proc r hr
    rw [findLoop_cons] at hr
    rcases @acceptCandidate_cases env sL src tL d [] proc c with heq | ⟨tf, g, hf, hg, hk, hi, hd, heq⟩
    · rw [heq] at hr
      obtain ⟨tf, g, h1, h2, h3, h4, h5, h6, h7⟩ := ih proc r hr
      exact ⟨tf, g, h1, h2, h3, h4, List.mem_cons_of_mem c h5, h6, h7⟩
    · rw [heq] at hr
      have hfid := getFeature_fid hf
      rw [findLoop_prepend] at hr
      rcases List.mem_append.mp hr with hr | hr
    -- either the record accepted for candidate c itself, or a later one
      · rcases List.mem_singleton.mp (by simpa using hr) with rfl
        refine ⟨tf, g, ?_, hg, rfl, ?_, ?_, ?_, ?_⟩ <;> rw [hfid]
        · exact hf
        · exact hk
        · exact List.mem_cons_self c cs
        · exact hi
        · exact hd
      · obtain ⟨tf', g', h1, h2, h3, h4, h5, h6, h7⟩ := ih _ r hr
        refine ⟨tf', g', h1, h2, h3, procLookup_insert_none h4,
          List.mem_cons_of_mem c h5, h6, h7⟩

/-- After the candidate loop, every produced record's key is bound to the
current band width. -/
theorem findLoop_newres_post : ∀ (cands : List Nat) (proc : ProcMap)
    (r : MatchRecord), r ∈ (findLoop env sL src tL d cands ([], proc)).1 →
    procLookup (findLoop env sL src tL d cands ([], proc)).2
      (tL.layerId, r.target_id) = some d := by
  intro cands
  induction cands with
  | nil => intro proc r hr; simp [findLoop_nil] at hr
  | cons c cs ih =>
    intro proc r hr
    rw [findLoop_cons] at hr ⊢
    rcases @acceptCandidate_cases env sL src tL d [] proc c with heq | ⟨tf, g, hf, hg, hk, hi, hd, heq⟩
    · rw [heq] at hr ⊢; exact ih proc r hr
    · rw [heq] at hr ⊢
      rw [findLoop_prepend] at hr
      rcases List.mem_append.mp hr with hr | hr
      · rcases List.mem_singleton.mp (by simpa using hr) with rfl
        have h1 : (recordFor env sL src tL d tf g).target_id = c :=
          getFeature_fid hf
        rw [h1]
        exact findLoop_mono cs _ (procInsert proc (tL.layerId, c) d)
          (tL.layerId, c) d (procLookup_insert_self proc _ d)
      · rw [findLoop_prepend]
        exact ih _ r hr

end FindLoopMore

section FindLoopRest

variable {env : Env} {sL : SourceLayer} {src : SourceFeature}
  {tL : TargetLayer} {d : ℚ}

/-- Within one candidate loop, no two produced records concern the same
target feature id. -/
theorem findLoop_newres_nodup : ∀ (cands : List Nat) (proc : ProcMap),
    ((findLoop env sL src tL d cands ([], proc)).1.map
      (fun r => r.target_id)).Nodup := by
  intro cands
  induction cands with
  | nil => intro proc; simp [findLoop_nil]
  | cons c cs ih =>
    intro proc
    rw [findLoop_cons]
    rcases @acceptCandidate_cases env sL src tL d [] proc c with heq | ⟨tf, g, hf, hg, hk, hi, hd, heq⟩
    · rw [heq]; exact ih proc
    · rw [heq, findLoop_prepend, List.nil_append, List.singleton_append,
        List.map_cons]
      refine List.nodup_cons.mpr ⟨?_, ih _⟩
      intro hmem
      obtain ⟨r, hr, hrid⟩ := List.mem_map.mp hmem
      obtain ⟨tf', g', _, _, hrec, hnone, _, _, _⟩ := findLoop_newres cs _ r hr
      have h1 : (recordFor env sL src tL d tf g).target_id = c :=
        getFeature_fid hf
      have h2 : r.target_id = tf'.fid := by rw [hrec]; rfl
      rw [h2, h1] at hrid
      rw [hrid, procLookup_insert_self] at hnone
      exact Option.noConfusion hnone

/-- A candidate meeting all acceptance conditions ends up bound in the map
after the loop, no matter where it sits in the candidate list. -/
theorem findLoop_complete : ∀ (cands : List Nat) (res : List MatchRecord)
    (proc : ProcMap) (fid : Nat) (tf : TargetFeature) (g : String),
    fid ∈ cands → getFeature tL fid = some tf → tf.geom = some g →
    env.intersects d src.sid tL.layerId fid = true →
    measureDistance env sL tL src.sid fid ≤ d →
    (procLookup (findLoop env sL src tL d cands (res, proc)).2
      (tL.layerId, fid)).isSome := by
  intro cands
  induction cands with
  | nil => intro res proc fid tf g hmem; simp at hmem
  | cons c cs ih =>
    intro res proc fid tf g hmem hf hg hi hd
    rw [findLoop_cons]
    by_cases hc : c = fid
    · subst hc
      by_cases hk : (procLookup proc (tL.layerId, c)).isSome
      · obtain ⟨v, hv⟩ := Option.isSome_iff_exists.mp hk
        rcases @acceptCandidate_cases env sL src tL d res proc c with heq | ⟨tf', g', _, _, hk', _, _, heq⟩
        · rw [heq, findLoop_mono cs res proc _ v hv]; rfl
        · rw [hv] at hk'; exact Option.noConfusion hk'
      · have hk' := Option.not_isSome_iff_eq_none.mp hk
        have heq : acceptCandidate env sL src tL d (res, proc) c =
            (res ++ [recordFor env sL src tL d tf g],
             procInsert proc (tL.layerId, c) d) := by
          simp [acceptCandidate, hf, hg, hk', hi, hd]
        rw [heq, findLoop_mono cs _ _ _ d (procLookup_insert_self proc _ d)]
        rfl
    · have hmem' : fid ∈ cs := by
        rcases List.mem_cons.mp hmem with h | h
        · exact absurd h.symm hc
        · exact h
      rcases @acceptCandidate_cases env sL src tL d res proc c with heq | ⟨tf', g', _, _, _, _, _, heq⟩
      · rw [heq]; exact ih res proc fid tf g hmem' hf hg hi hd
      · rw [heq]; exact ih _ _ fid tf g hmem' hf hg hi hd

/-- A candidate meeting all acceptance conditions whose key is not yet in the
map produces its record in this very invocation. -/
theorem findLoop_emit : ∀ (cands : List Nat) (proc : ProcMap) (fid : Nat)
    (tf : TargetFeature) (g : String),
    fid ∈ cands → getFeature tL fid = some tf → tf.geom = some g →
    procLookup proc (tL.layerId, fid) = none →
    env.intersects d src.sid tL.layerId fid = true →
    measureDistance env sL tL src.sid fid ≤ d →
    recordFor env sL src tL d tf g ∈
      (findLoop env sL src tL d cands ([], proc)).1 := by
  intro cands
  induction cands with
  | nil => intro proc fid tf g hmem; simp at hmem
  | cons c cs ih =>
    intro proc fid tf g hmem hf hg hk hi hd
    rw [findLoop_cons]
    by_cases hc : c = fid
    · subst hc
      have hk' : ¬(procLookup proc (tL.layerId, c)).isSome := by
        rw [hk]; simp
      have heq : acceptCandidate env sL src tL d ([], proc) c =
          ([recordFor env sL src tL d tf g],
           procInsert proc (tL.layerId, c) d) := by
        simp [acceptCandidate, hf, hg, hk', hi, hd]
      rw [heq, findLoop_prepend]
      exact List.mem_append.mpr (Or.inl (List.mem_singleton.mpr rfl))
    · have hmem' : fid ∈ cs := by
        rcases List.mem_cons.mp hmem with h | h
        · exact absurd h.symm hc
        · exact h
      rcases @acceptCandidate_cases env sL src tL d [] proc c with heq | ⟨tf', g', hf', hg', hk2, hi', hd', heq⟩
      · rw [heq]; exact ih proc fid tf g hmem' hf hg hk hi hd
      · rw [heq, findLoop_prepend]
        refine List.mem_append.mpr (Or.inr ?_)
        refine ih _ fid tf g hmem' hf hg ?_ hi hd
        refine (procLookup_insert_ne proc d ?_).trans hk
        intro hkk
        exact hc (congrArg Prod.snd hkk)

/-- A feature that can never be accepted at this band (null geometry, no
intersection, or distance above the band) is left untouched by the loop:
its key binding is unchanged and no new record mentions its id. -/
theorem findLoop_skipkey : ∀ (cands : List Nat) (res : List MatchRecord)
    (proc : ProcMap) (fid : Nat),
    (∀ tf, getFeature tL fid = some tf →
      tf.geom = none ∨ env.intersects d src.sid tL.layerId fid = false ∨
      d < measureDistance env sL tL src.sid fid) →
    procLookup (findLoop env sL src tL d cands (res, proc)).2
        (tL.layerId, fid) = procLookup proc (tL.layerId, fid) ∧
    ∀ r ∈ (findLoop env sL src tL d cands (res, proc)).1,
      r ∈ res ∨ r.target_id ≠ fid := by
  intro cands
  induction cands with
  | nil =>
    intro res proc fid _
    exact ⟨rfl, fun r hr => Or.inl hr⟩
  | cons c cs ih =>
    intro res proc fid hskip
    rw [findLoop_cons]
    by_cases hc : c = fid
    · subst hc
      have hstep : acceptCandidate env sL src tL d (res, proc) c = (res, proc) := by
        rcases hf : getFeature tL c with _ | tf
        · simp [acceptCandidate, hf]
        · rcases hskip tf hf with hg | hi | hd
          · simp [acceptCandidate, hf, hg]
          · by_cases hk : (procLookup proc (tL.layerId, c)).isSome
            · cases hg : tf.geom <;> simp [acceptCandidate, hf, hg, hk]
            · rcases hg : tf.geom with _ | g
              · simp [acceptCandidate, hf, hg]
              · simp [acceptCandidate, hf, hg, hk, hi]
          · by_cases hk : (procLookup proc (tL.layerId, c)).isSome
            · cases hg : tf.geom <;> simp [acceptCandidate, hf, hg, hk]
            · rcases hg : tf.geom with _ | g
              · simp [acceptCandidate, hf, hg]
              · by_cases hi : env.intersects d src.sid tL.layerId c
                · simp [acceptCandidate, hf, hg, hk, hi, not_le.mpr hd]
                · simp [acceptCandidate, hf, hg, hk, hi]
      rw [hstep]
      exact ih res proc c hskip
    · rcases @acceptCandidate_cases env sL src tL d res proc c with heq | ⟨tf, g, hf, hg, hk, hi, hd, heq⟩
      · rw [heq]; exact ih res proc fid hskip
      · rw [heq]
        have hne : ((tL.layerId, c) : ProcKey) ≠ (tL.layerId, fid) := by
          intro hkk
          exact hc (congrArg Prod.snd hkk)
        obtain ⟨ha, hb⟩ := ih (res ++ [recordFor env sL src tL d tf g])
          (procInsert proc (tL.layerId, c) d) fid hskip
        refine ⟨ha.trans (procLookup_insert_ne proc d hne), ?_⟩
        intro r hr
        rcases hb r hr with h | h
        · rcases List.mem_append.mp h with h' | h'
          · exact Or.inl h'
          · right
            rcases List.mem_singleton.mp h' with rfl
            have h1 : (recordFor env sL src tL d tf g).target_id = c :=
              getFeature_fid hf
            rw [h1]
            exact hc
        · exact Or.inr h

/-- The candidate loop never binds the same key twice. -/
theorem findLoop_keysnodup : ∀ (cands : List Nat) (res : List MatchRecord)
    (proc : ProcMap),
    (proc.map Prod.fst).Nodup →
    (((findLoop env sL src tL d cands (res, proc)).2.map Prod.fst)).Nodup := by
  intro cands
  induction cands with
  | nil => intro res proc h; simpa [findLoop_nil]
  | cons c cs ih =>
    intro res proc h
    rw [findLoop_cons]
    rcases @acceptCandidate_cases env sL src tL d res proc c with heq | ⟨tf, g, hf, hg, hk, hi, hd, heq⟩
    · rw [heq]; exact ih res proc h
    · rw [heq]
      refine ih _ _ ?_
      simp only [procInsert, List.map_cons, List.nodup_cons]
      exact ⟨procLookup_eq_none_iff.mp hk, h⟩

end FindLoopRest

/-! ### Run-level invariant -/

/-- Well-formedness of the configured target layers: the layer id identifies
the layer, and the display name determines the layer id (QGIS layer ids are
unique within a project). -/
def LayersOK (targets : List TargetLayer) : Prop :=
  (∀ tl ∈ targets, ∀ tl' ∈ targets, tl.layerId = tl'.layerId → tl = tl') ∧
  (∀ tl ∈ targets, ∀ tl' ∈ targets, tl.name = tl'.name → tl.layerId = tl'.layerId)

/-- The invariant carried through one run.  `bandsV` is the set of band
widths a processed-set value may carry so far; `bandsC` is the set of bands
whose processing has completed (so every feature qualifying at such a band
is already captured at that band or a smaller one). -/
structure RunInv (env : Env) (sL : SourceLayer) (sources : List SourceFeature)
    (targets : List TargetLayer) (bandsV bandsC : List ℚ)
    (st : AState) : Prop where
  recs : ∀ r ∈ st.results, ∃ tl, tl ∈ targets ∧ tl.name = r.target_layer ∧
    procLookup st.processed_features (tl.layerId, r.target_id) =
      some r.buffer_distance ∧
    r.distance ≤ r.buffer_distance ∧ r.buffer_distance ∈ bandsV ∧
    ∃ s, s ∈ sources ∧ qualifies env sL r.buffer_distance s tl r.target_id
  pair : List.Pairwise (fun r r' => ¬(r.target_layer = r'.target_layer ∧
    r.target_id = r'.target_id)) st.results
  vals : ∀ k v, procLookup st.processed_features k = some v → v ∈ bandsV
  comp : ∀ d ∈ bandsC, ∀ s ∈ sources, ∀ tl ∈ targets, ∀ fid,
    qualifies env sL d s tl fid →
    ∃ v, procLookup st.processed_features (tl.layerId, fid) = some v ∧ v ≤ d
  keys : (st.processed_features.map Prod.fst).Nodup
  nullk : ∀ tl ∈ targets, ∀ fid tf, getFeature tl fid = some tf →
    tf.geom = none → procLookup st.processed_features (tl.layerId, fid) = none

theorem RunInv.weakenV {env sL sources targets bandsV bandsV' bandsC st}
    (hsub : ∀ b ∈ bandsV, b ∈ bandsV')
    (hI : RunInv env sL sources targets bandsV bandsC st) :
    RunInv env sL sources targets bandsV' bandsC st where
  recs := fun r hr => by
    obtain ⟨tl, h1, h2, h3, h4, h5, h6⟩ := hI.recs r hr
    exact ⟨tl, h1, h2, h3, h4, hsub _ h5, h6⟩
  pair := hI.pair
  vals := fun k v hv => hsub _ (hI.vals k v hv)
  comp := hI.comp
  keys := hI.keys
  nullk := hI.nullk

/-- The empty constructor state satisfies the invariant with no bands done. -/
theorem inv_init (env : Env) (sL : SourceLayer)
    (sources : List SourceFeature) (targets : List TargetLayer) :
    RunInv env sL sources targets [] [] initState where
  recs := fun r hr => by simp [initState] at hr
  pair := by simp [initState]
  vals := fun k v hv => by simp [initState, procLookup] at hv
  comp := fun d hd => by simp at hd
  keys := by simp [initState]
  nullk := fun tl _ fid tf _ _ => rfl

/-- One `find_features_in_buffer` invocation preserves the run invariant,
captures every feature qualifying at the current band for this
(source, layer) pair, and preserves all existing bindings. -/
theorem layerStep_inv {env : Env} {sL : SourceLayer}
    {sources : List SourceFeature} {targets : List TargetLayer}
    {bandsV bandsC : List ℚ} {st : AState} {src : SourceFeature}
    {tL : TargetLayer} {d : ℚ}
    (hL : LayersOK targets) (hsrc : src ∈ sources) (htL : tL ∈ targets)
    (hdmem : d ∈ bandsV) (hub : ∀ b ∈ bandsV, b ≤ d)
    (hI : RunInv env sL sources targets bandsV bandsC st) :
    RunInv env sL sources targets bandsV bandsC
      (layerStep env sL src d st tL) ∧
    (∀ fid, qualifies env sL d src tL fid →
      ∃ v, procLookup (layerStep env sL src d st tL).processed_features
        (tL.layerId, fid) = some v ∧ v ≤ d) ∧
    (∀ k v, procLookup st.processed_features k = some v →
      procLookup (layerStep env sL src d st tL).processed_features k =
        some v) := by
  obtain ⟨proc, results⟩ := st
  rcases hq : env.indexQuery d src.sid tL.layerId with e | cands
  · have hst : layerStep env sL src d ⟨proc, results⟩ tL = ⟨proc, results⟩ := by
      simp [layerStep, find_eq_of_error _ hq]
    rw [hst]
    refine ⟨hI, ?_, fun k v hv => hv⟩
    intro fid hqual
    obtain ⟨⟨cands', hq', _⟩, _, _, _⟩ := hqual
    rw [hq] at hq'
    exact absurd hq' (by simp)
  · have hst : layerStep env sL src d ⟨proc, results⟩ tL =
        ⟨(findLoop env sL src tL d cands ([], proc)).2,
         results ++ (findLoop env sL src tL d cands ([], proc)).1⟩ := by
      simp [layerStep, find_eq_of_ok _ hq]
    rw [hst]
    have hmono : ∀ k v, procLookup proc k = some v →
        procLookup (findLoop env sL src tL d cands ([], proc)).2 k = some v :=
      fun k v hv => findLoop_mono cands [] proc k v hv
    have hcompl : ∀ fid, qualifies env sL d src tL fid →
        ∃ v, procLookup (findLoop env sL src tL d cands ([], proc)).2
          (tL.layerId, fid) = some v ∧ v ≤ d := by
      intro fid hqual
      obtain ⟨⟨cands', hq', hmem'⟩, ⟨tf, g, hf, hg⟩, hi, hd⟩ := hqual
      have hcc : cands = cands' := by
        have := hq.symm.trans hq'
        injection this
      subst hcc
      have hs := findLoop_complete cands [] proc fid tf g hmem' hf hg hi hd
      obtain ⟨v, hv⟩ := Option.isSome_iff_exists.mp hs
      refine ⟨v, hv, ?_⟩
      rcases findLoop_newkeys cands [] proc _ v hv with hold | ⟨hvd, _, _⟩
      · exact hub v (hI.vals _ v hold)
      · exact hvd.le
    refine ⟨?_, hcompl, hmono⟩
    constructor
    · intro r hr
      rcases List.mem_append.mp hr with hr | hr
      · obtain ⟨tl, h1, h2, h3, h4, h5, h6⟩ := hI.recs r hr
        exact ⟨tl, h1, h2, hmono _ _ h3, h4, h5, h6⟩
      · obtain ⟨tf, g, hgf, hgg, hrec, hnone, hmemc, hi, hd⟩ :=
          findLoop_newres cands proc r hr
        subst hrec
        refine ⟨tL, htL, rfl, ?_, hd, hdmem, src, hsrc,
          ⟨cands, hq, hmemc⟩, ⟨tf, g, hgf, hgg⟩, hi, hd⟩
        exact findLoop_newres_post cands proc _ hr
    · refine List.pairwise_append.mpr ⟨hI.pair, ?_, ?_⟩
      · have hnd := @findLoop_newres_nodup env sL src tL d cands proc
        have hpw := List.pairwise_map.mp hnd
        exact hpw.imp (fun hne hclash => hne hclash.2)
      · intro r hr r' hr' hclash
        obtain ⟨hname, htid⟩ := hclash
        obtain ⟨tl, h1, h2, h3, _, _, _⟩ := hI.recs r hr
        obtain ⟨tf', g', _, _, hrec', hnone', _, _, _⟩ :=
          findLoop_newres cands proc r' hr'
        have hnm : tl.name = tL.name := by
          rw [h2, hname, hrec']; rfl
        have hid : tl.layerId = tL.layerId := hL.2 tl h1 tL htL hnm
        have htid' : r.target_id = tf'.fid := by rw [htid, hrec']; rfl
        rw [hid, htid'] at h3
        rw [h3] at hnone'
        exact Option.noConfusion hnone'
    · intro k v hv
      rcases findLoop_newkeys cands [] proc k v hv with hold | ⟨hvd, _, _⟩
      · exact hI.vals k v hold
      · rw [hvd]; exact hdmem
    · intro d' hd' s hs tl htl fid hqual
      obtain ⟨v, hv, hle⟩ := hI.comp d' hd' s hs tl htl fid hqual
      exact ⟨v, hmono _ _ hv, hle⟩
    · exact findLoop_keysnodup cands [] proc hI.keys
    · intro tl htl fid tf hgf hgn
      rcases hv : procLookup (findLoop env sL src tL d cands ([], proc)).2
          (tl.layerId, fid) with _ | v
      · rfl
      · exfalso
        rcases findLoop_newkeys cands [] proc _ v hv with hold | ⟨_, hfst, tf2, g2, hgf2, hgg2⟩
        · rw [hI.nullk tl htl fid tf hgf hgn] at hold
          exact Option.noConfusion hold
        · have htl' : tl = tL := hL.1 tl htl tL htL hfst
          rw [htl'] at hgf
          rw [hgf] at hgf2
          injection hgf2 with htf
          rw [← htf] at hgg2
          rw [hgn] at hgg2
          exact Option.noConfusion hgg2

/-- Folding the layer loop over any sub-list of the configured target layers
preserves the invariant, captures every feature qualifying at the current
band for this source in one of those layers, and preserves bindings. -/
theorem foldl_layerStep_inv {env : Env} {sL : SourceLayer}
    {sources : List SourceFeature} {targets : List TargetLayer}
    {bandsV bandsC : List ℚ} {src : SourceFeature} {d : ℚ}
    (hL : LayersOK targets) (hsrc : src ∈ sources)
    (hdmem : d ∈ bandsV) (hub : ∀ b ∈ bandsV, b ≤ d) :
    ∀ (tgts : List TargetLayer) (st : AState),
    (∀ tl ∈ tgts, tl ∈ targets) →
    RunInv env sL sources targets bandsV bandsC st →
    RunInv env sL sources targets bandsV bandsC
      (tgts.foldl (layerStep env sL src d) st) ∧
    (∀ tl ∈ tgts, ∀ fid, qualifies env sL d src tl fid →
      ∃ v, procLookup
        (tgts.foldl (layerStep env sL src d) st).processed_features
        (tl.layerId, fid) = some v ∧ v ≤ d) ∧
    (∀ k v, procLookup st.processed_features k = some v →
      procLookup
        (tgts.foldl (layerStep env sL src d) st).processed_features k =
        some v) := by
  intro tgts
  induction tgts with
  | nil =>
    intro st _ hI
    exact ⟨hI, fun tl htl => by simp at htl, fun k v hv => hv⟩
  | cons tl tgts' ih =>
    intro st hsub hI
    have htL : tl ∈ targets := hsub tl (List.mem_cons_self tl tgts')
    obtain ⟨hI1, hc1, hm1⟩ := layerStep_inv hL hsrc htL hdmem hub hI
    rw [List.foldl_cons]
    obtain ⟨hI2, hc2, hm2⟩ := ih (layerStep env sL src d st tl)
      (fun tl' htl' => hsub tl' (List.mem_cons_of_mem tl htl')) hI1
    refine ⟨hI2, ?_, fun k v hv => hm2 k v (hm1 k v hv)⟩
    intro tl' htl' fid hqual
    rcases List.mem_cons.mp htl' with rfl | htl'
    · obtain ⟨v, hv, hle⟩ := hc1 fid hqual
      exact ⟨v, hm2 _ v hv, hle⟩
    · exact hc2 tl' htl' fid hqual

/-- Folding the source loop over any sub-list of the source features
preserves the invariant and captures every feature qualifying at the current
band for any of those sources. -/
theorem foldl_sourceStep_inv {env : Env} {sL : SourceLayer}
    {sources : List SourceFeature} {targets : List TargetLayer}
    {bandsV bandsC : List ℚ} {d : ℚ}
    (hL : LayersOK targets) (hdmem : d ∈ bandsV) (hub : ∀ b ∈ bandsV, b ≤ d) :
    ∀ (srcs : List SourceFeature) (st : AState),
    (∀ s ∈ srcs, s ∈ sources) →
    RunInv env sL sources targets bandsV bandsC st →
    RunInv env sL sources targets bandsV bandsC
      (srcs.foldl (sourceStep env sL targets d) st) ∧
    (∀ s ∈ srcs, ∀ tl ∈ targets, ∀ fid, qualifies env sL d s tl fid →
      ∃ v, procLookup
        (srcs.foldl (sourceStep env sL targets d) st).processed_features
        (tl.layerId, fid) = some v ∧ v ≤ d) ∧
    (∀ k v, procLookup st.processed_features k = some v →
      procLookup
        (srcs.foldl (sourceStep env sL targets d) st).processed_features k =
        some v) := by
  intro srcs
  induction srcs with
  | nil =>
    intro st _ hI
    exact ⟨hI, fun s hs => by simp at hs, fun k v hv => hv⟩
  | cons s srcs' ih =>
    intro st hsub hI
    have hs : s ∈ sources := hsub s (List.mem_cons_self s srcs')
    obtain ⟨hI1, hc1, hm1⟩ := foldl_layerStep_inv hL hs hdmem hub targets st
      (fun tl htl => htl) hI
    rw [List.foldl_cons]
    obtain ⟨hI2, hc2, hm2⟩ := ih (sourceStep env sL targets d st s)
      (fun s' hs' => hsub s' (List.mem_cons_of_mem s hs')) hI1
    refine ⟨hI2, ?_, fun k v hv => hm2 k v (hm1 k v hv)⟩
    intro s' hs' tl htl fid hqual
    rcases List.mem_cons.mp hs' with rfl | hs'
    · obtain ⟨v, hv, hle⟩ := hc1 tl htl fid hqual
      exact ⟨v, hm2 _ v hv, hle⟩
    · exact hc2 s' hs' tl htl fid hqual

/-- Processing one band turns completeness at strictly smaller bands into
completeness including the new band. -/
theorem analyze_distance_inv {env : Env} {sL : SourceLayer}
    {sources : List SourceFeature} {targets : List TargetLayer}
    {done : List ℚ} {d : ℚ} {st : AState}
    (hL : LayersOK targets) (hub : ∀ b ∈ done, b ≤ d)
    (hI : RunInv env sL sources targets done done st) :
    RunInv env sL sources targets (done ++ [d]) (done ++ [d])
      (analyze_distance env sL sources targets d st) := by
  have hdmem : d ∈ done ++ [d] := List.mem_append.mpr (Or.inr (by simp))
  have hub' : ∀ b ∈ done ++ [d], b ≤ d := by
    intro b hb
    rcases List.mem_append.mp hb with hb | hb
    · exact hub b hb
    · rw [List.mem_singleton.mp hb]
  have hI0 : RunInv env sL sources targets (done ++ [d]) done st :=
    hI.weakenV (fun b hb => List.mem_append.mpr (Or.inl hb))
  obtain ⟨hI1, hc1, _⟩ := foldl_sourceStep_inv hL hdmem hub' sources st
    (fun s hs => hs) hI0
  refine ⟨hI1.recs, hI1.pair, hI1.vals, ?_, hI1.keys, hI1.nullk⟩
  intro d' hd' s hs tl htl fid hqual
  rcases List.mem_append.mp hd' with hd' | hd'
  · exact hI1.comp d' hd' s hs tl htl fid hqual
  · rw [List.mem_singleton.mp hd'] at hqual ⊢
    exact hc1 s hs tl htl fid hqual

/-- Processing a sorted list of bands, all at least as large as every band
already done, extends the invariant over those bands. -/
theorem processBands_inv {env : Env} {sL : SourceLayer}
    {sources : List SourceFeature} {targets : List TargetLayer}
    (hL : LayersOK targets) :
    ∀ (bands done : List ℚ) (st : AState),
    List.Sorted (fun a b => a ≤ b) bands →
    (∀ b ∈ done, ∀ b' ∈ bands, b ≤ b') →
    RunInv env sL sources targets done done st →
    RunInv env sL sources targets (done ++ bands) (done ++ bands)
      (processBands env sL sources targets bands st) := by
  intro bands
  induction bands with
  | nil =>
    intro done st _ _ hI
    simpa [processBands] using hI
  | cons d rest ih =>
    intro done st hsort hub hI
    have hub1 : ∀ b ∈ done, b ≤ d :=
      fun b hb => hub b hb d (List.mem_cons_self d rest)
    have hI1 := analyze_distance_inv hL hub1 hI
    have hsort' : List.Sorted (fun a b => a ≤ b) rest :=
      (List.sorted_cons.mp hsort).2
    have hdle : ∀ b' ∈ rest, d ≤ b' := (List.sorted_cons.mp hsort).1
    have hub2 : ∀ b ∈ done ++ [d], ∀ b' ∈ rest, b ≤ b' := by
      intro b hb b' hb'
      rcases List.mem_append.mp hb with hb | hb
      · exact hub b hb b' (List.mem_cons_of_mem d hb')
      · rw [List.mem_singleton.mp hb]
        exact hdle b' hb'
    have h2 := ih (done ++ [d]) (analyze_distance env sL sources targets d st)
      hsort' hub2 hI1
    rw [List.append_assoc, List.singleton_append] at h2
    exact h2

/-- The invariant holds at the end of a full run, over the ascending-sorted
band list. -/
theorem run_analysis_inv {env : Env} {sL : SourceLayer}
    {sources : List SourceFeature} {targets : List TargetLayer}
    {distances : List ℚ} (hL : LayersOK targets) :
    RunInv env sL sources targets
      (List.insertionSort (fun a b => a ≤ b) distances)
      (List.insertionSort (fun a b => a ≤ b) distances)
      (run_analysis env sL sources targets distances) := by
  have h := processBands_inv hL
    (List.insertionSort (fun a b => a ≤ b) distances) [] initState
    (List.sorted_insertionSort (fun a b => a ≤ b) distances)
    (fun b hb => by simp at hb)
    (inv_init env sL sources targets)
  simpa [run_analysis] using h

/-! ### Monotone growth of the Processed-Set, without side conditions -/

theorem layerStep_proc_mono {env : Env} {sL : SourceLayer}
    {src : SourceFeature} {d : ℚ} {st : AState} {tL : TargetLayer}
    {k : ProcKey} {v : ℚ}
    (hv : procLookup st.processed_features k = some v) :
    procLookup (layerStep env sL src d st tL).processed_features k = some v := by
  obtain ⟨proc, results⟩ := st
  rcases hq : env.indexQuery d src.sid tL.layerId with e | cands
  · simpa [layerStep, find_eq_of_error _ hq] using hv
  · have hst : layerStep env sL src d ⟨proc, results⟩ tL =
        ⟨(findLoop env sL src tL d cands ([], proc)).2,
         results ++ (findLoop env sL src tL d cands ([], proc)).1⟩ := by
      simp [layerStep, find_eq_of_ok _ hq]
    rw [hst]
    exact findLoop_mono cands [] proc k v hv

theorem foldl_layerStep_proc_mono {env : Env} {sL : SourceLayer}
    {src : SourceFeature} {d : ℚ} {k : ProcKey} {v : ℚ} :
    ∀ (tgts : List TargetLayer) (st : AState),
    procLookup st.processed_features k = some v →
    procLookup (tgts.foldl (layerStep env sL src d) st).processed_features k =
      some v := by
  intro tgts
  induction tgts with
  | nil => intro st hv; exact hv
  | cons tl tgts' ih =>
    intro st hv
    rw [List.foldl_cons]
    exact ih _ (layerStep_proc_mono hv)

theorem sourceStep_proc_mono {env : Env} {sL : SourceLayer}
    {targets : List TargetLayer} {src : SourceFeature} {d : ℚ}
    {k : ProcKey} {v : ℚ} (st : AState)
    (hv : procLookup st.processed_features k = some v) :
    procLookup (sourceStep env sL targets d st src).processed_features k =
      some v :=
  foldl_layerStep_proc_mono targets st hv

theorem analyze_distance_proc_mono {env : Env} {sL : SourceLayer}
    {targets : List TargetLayer} {d : ℚ} {k : ProcKey} {v : ℚ} :
    ∀ (srcs : List SourceFeature) (st : AState),
    procLookup st.processed_features k = some v →
    procLookup (analyze_distance env sL srcs targets d st).processed_features
      k = some v := by
  intro srcs
  induction srcs with
  | nil => intro st hv; exact hv
  | cons s srcs' ih =>
    intro st hv
    rw [analyze_distance, List.foldl_cons]
    exact ih _ (sourceStep_proc_mono st hv)

theorem processBands_proc_mono {env : Env} {sL : SourceLayer}
    {sources : List SourceFeature} {targets : List TargetLayer}
    {k : ProcKey} {v : ℚ} :
    ∀ (bands : List ℚ) (st : AState),
    procLookup st.processed_features k = some v →
    procLookup
      (processBands env sL sources targets bands st).processed_features k =
      some v := by
  intro bands
  induction bands with
  | nil => intro st hv; exact hv
  | cons d rest ih =>
    intro st hv
    rw [processBands, List.foldl_cons]
    exact ih _ (analyze_distance_proc_mono sources st hv)

theorem processBands_append {env : Env} {sL : SourceLayer}
    {sources : List SourceFeature} {targets : List TargetLayer}
    (l1 l2 : List ℚ) (st : AState) :
    processBands env sL sources targets (l1 ++ l2) st =
      processBands env sL sources targets l2
        (processBands env sL sources targets l1 st) := by
  simp [processBands, List.foldl_append]

/-! ### Key uniqueness of the Processed-Set, without side conditions -/

theorem layerStep_keys_nodup {env : Env} {sL : SourceLayer}
    {src : SourceFeature} {d : ℚ} {st : AState} {tL : TargetLayer}
    (h : (st.processed_features.map Prod.fst).Nodup) :
    ((layerStep env sL src d st tL).processed_features.map Prod.fst).Nodup := by
  obtain ⟨proc, results⟩ := st
  rcases hq : env.indexQuery d src.sid tL.layerId with e | cands
  · simpa [layerStep, find_eq_of_error _ hq] using h
  · have hst : layerStep env sL src d ⟨proc, results⟩ tL =
        ⟨(findLoop env sL src tL d cands ([], proc)).2,
         results ++ (findLoop env sL src tL d cands ([], proc)).1⟩ := by
      simp [layerStep, find_eq_of_ok _ hq]
    rw [hst]
    exact findLoop_keysnodup cands [] proc h

theorem foldl_layerStep_keys_nodup {env : Env} {sL : SourceLayer}
    {src : SourceFeature} {d : ℚ} :
    ∀ (tgts : List TargetLayer) (st : AState),
    (st.processed_features.map Prod.fst).Nodup →
    ((tgts.foldl (layerStep env sL src d) st).processed_features.map
      Prod.fst).Nodup := by
  intro tgts
  induction tgts with
  | nil => intro st h; exact h
  | cons tl tgts' ih =>
    intro st h
    rw [List.foldl_cons]
    exact ih _ (layerStep_keys_nodup h)

theorem sourceStep_keys_nodup {env : Env} {sL : SourceLayer}
    {targets : List TargetLayer} {src : SourceFeature} {d : ℚ} (st : AState)
    (h : (st.processed_features.map Prod.fst).Nodup) :
    ((sourceStep env sL targets d st src).processed_features.map
      Prod.fst).Nodup :=
  foldl_layerStep_keys_nodup targets st h

theorem analyze_distance_keys_nodup {env : Env} {sL : SourceLayer}
    {targets : List TargetLayer} {d : ℚ} :
    ∀ (srcs : List SourceFeature) (st : AState),
    (st.processed_features.map Prod.fst).Nodup →
    ((analyze_distance env sL srcs targets d st).processed_features.map
      Prod.fst).Nodup := by
  intro srcs
  induction srcs with
  | nil => intro st h; exact h
  | cons s srcs' ih =>
    intro st h
    rw [analyze_distance, List.foldl_cons]
    exact ih _ (sourceStep_keys_nodup st h)

theorem processBands_keys_nodup {env : Env} {sL : SourceLayer}
    {sources : List SourceFeature} {targets : List TargetLayer} :
    ∀ (bands : List ℚ) (st : AState),
    (st.processed_features.map Prod.fst).Nodup →
    ((processBands env sL sources targets bands st).processed_features.map
      Prod.fst).Nodup := by
  intro bands
  induction bands with
  | nil => intro st h; exact h
  | cons d rest ih =>
    intro st h
    rw [processBands, List.foldl_cons]
    exact ih _ (analyze_distance_keys_nodup sources st h)

/-! ### The claims -/

/-- C1: for every run, for every (target layer, target feature) pair, at most
one Match Record is emitted across all bands and all source features — no two
records in the output agree on both target layer and target id, however many
sources qualify the same feature within one band. -/
theorem C1_at_most_one_record_per_target (env : Env) (sL : SourceLayer)
    (sources : List SourceFeature) (targets : List TargetLayer)
    (distances : List ℚ) (hL : LayersOK targets) :
    List.Pairwise
      (fun r r' => ¬(r.target_layer = r'.target_layer ∧
        r.target_id = r'.target_id))
      (run_analysis env sL sources targets distances).results :=
  (run_analysis_inv hL).pair

/-- C2: the single record emitted for a target feature carries the smallest
configured band width at which the feature qualifies: its recorded band is a
configured band at which it qualifies for some source, and is at most every
configured band at which it qualifies for any source. -/
theorem C2_record_carries_smallest_band (env : Env) (sL : SourceLayer)
    (sources : List SourceFeature) (targets : List TargetLayer)
    (distances : List ℚ) (hL : LayersOK targets) (r : MatchRecord)
    (hr : r ∈ (run_analysis env sL sources targets distances).results)
    (tl : TargetLayer) (htl : tl ∈ targets)
    (hname : tl.name = r.target_layer) :
    r.buffer_distance ∈ distances ∧
    (∃ s ∈ sources,
      qualifies env sL r.buffer_distance s tl r.target_id) ∧
    (∀ d ∈ distances,
      (∃ s ∈ sources, qualifies env sL d s tl r.target_id) →
      r.buffer_distance ≤ d) := by
  have hRI := @run_analysis_inv env sL sources targets distances hL
  obtain ⟨tl0, h1, h2, h3, _, h5, s0, hs0, h6⟩ := hRI.recs r hr
  have hid : tl0.layerId = tl.layerId :=
    hL.2 tl0 h1 tl htl (h2.trans hname.symm)
  have htleq : tl0 = tl := hL.1 tl0 h1 tl htl hid
  subst htleq
  refine ⟨(List.mem_insertionSort (fun a b => a ≤ b)).mp h5,
    ⟨s0, hs0, h6⟩, ?_⟩
  intro d hd ⟨s, hs, hqual⟩
  have hd' : d ∈ List.insertionSort (fun a b => a ≤ b) distances :=
    (List.mem_insertionSort (fun a b => a ≤ b)).mpr hd
  obtain ⟨v, hv, hle⟩ := hRI.comp d hd' s hs tl0 h1 r.target_id hqual
  rw [h3] at hv
  injection hv with hv
  rw [hv]
  exact hle

/-- C3: every accepted Match Record stores a measured distance of at most the
recorded band width; and the bound is inclusive — a candidate whose measured
distance equals the band width exactly is accepted and emitted. -/
theorem C3_distance_le_band_inclusive (env : Env) (sL : SourceLayer)
    (sources : List SourceFeature) (targets : List TargetLayer)
    (distances : List ℚ) (hL : LayersOK targets)
    (src : SourceFeature) (tL : TargetLayer) (d : ℚ) (proc : ProcMap)
    (cands : List Nat) (fid : Nat) (tf : TargetFeature) (g : String)
    (hq : env.indexQuery d src.sid tL.layerId = .ok cands)
    (hmem : fid ∈ cands) (hf : getFeature tL fid = some tf)
    (hg : tf.geom = some g)
    (hkey : procLookup proc (tL.layerId, fid) = none)
    (hi : env.intersects d src.sid tL.layerId fid = true)
    (hd : measureDistance env sL tL src.sid fid = d) :
    (∀ r ∈ (run_analysis env sL sources targets distances).results,
      r.distance ≤ r.buffer_distance) ∧
    (∃ r ∈ (find_features_in_buffer env sL src tL d proc).1,
      r.target_id = fid ∧ r.distance = d ∧ r.buffer_distance = d) := by
  constructor
  · intro r hr
    obtain ⟨_, _, _, _, h4, _, _⟩ := (run_analysis_inv hL).recs r hr
    exact h4
  · rw [find_eq_of_ok proc hq]
    refine ⟨recordFor env sL src tL d tf g,
      findLoop_emit cands proc fid tf g hmem hf hg hkey hi hd.le, ?_, ?_, rfl⟩
    · exact getFeature_fid hf
    · show measureDistance env sL tL src.sid tf.fid = d
      rw [getFeature_fid hf]
      exact hd

/-- C4: the measured distance is the centroid-to-centroid ellipsoidal
measurement whenever either the source layer or the target layer has point
geometry, and the native planar geometry-to-geometry distance otherwise. -/
theorem C4_distance_method (env : Env) (sL : SourceLayer) (tL : TargetLayer)
    (sid fid : Nat) (dp de : ℚ)
    (hp : env.planarDistance sid tL.layerId fid = .ok dp)
    (he : env.ellipsoidalDistance sid tL.layerId fid = .ok de) :
    measureDistance env sL tL sid fid =
      if sL.isPointGeom || tL.isPointGeom then de else dp := by
  by_cases h : (sL.isPointGeom || tL.isPointGeom) = true
  · simp [measureDistance, measureTry, hp, h, he]
  · simp [measureDistance, measureTry, hp, h]

/-- C5: when the distance measurement raises, the candidate is not dropped:
the measured distance falls back to 0.0, the feature is matched at the
current band, a record with distance 0 is emitted, and its key is inserted
into the Processed-Set; no error escapes the invocation. -/
theorem C5_measurement_error_matches_with_zero (env : Env) (sL : SourceLayer)
    (src : SourceFeature) (tL : TargetLayer) (d : ℚ) (proc : ProcMap)
    (cands : List Nat) (fid : Nat) (tf : TargetFeature) (g : String)
    (e : String)
    (hq : env.indexQuery d src.sid tL.layerId = .ok cands)
    (hmem : fid ∈ cands) (hf : getFeature tL fid = some tf)
    (hg : tf.geom = some g)
    (hkey : procLookup proc (tL.layerId, fid) = none)
    (hi : env.intersects d src.sid tL.layerId fid = true)
    (herr : measureTry env sL tL src.sid fid = .error e)
    (hd : 0 ≤ d) :
    measureDistance env sL tL src.sid fid = 0 ∧
    (∃ r ∈ (find_features_in_buffer env sL src tL d proc).1,
      r.target_id = fid ∧ r.distance = 0 ∧ r.buffer_distance = d) ∧
    procLookup (find_features_in_buffer env sL src tL d proc).2
      (tL.layerId, fid) = some d := by
  have h0 : measureDistance env sL tL src.sid fid = 0 :=
    measureDistance_of_error herr
  have hle : measureDistance env sL tL src.sid fid ≤ d := by rw [h0]; exact hd
  rw [find_eq_of_ok proc hq]
  have hr := findLoop_emit cands proc fid tf g hmem hf hg hkey hi hle
  refine ⟨h0, ⟨recordFor env sL src tL d tf g, hr, getFeature_fid hf, ?_, rfl⟩, ?_⟩
  · show measureDistance env sL tL src.sid tf.fid = 0
    rw [getFeature_fid hf]
    exact h0
  · have := findLoop_newres_post cands proc _ hr
    have hrid : (recordFor env sL src tL d tf g).target_id = fid :=
      getFeature_fid hf
    rwa [hrid] at this

/-- C6: a failure enumerating the target layer's spatial index for one
(band, source) invocation is caught: the invocation returns zero results,
the Processed-Set is untouched, and the surrounding loop step leaves the
analyzer state exactly as it was, so the run continues. -/
theorem C6_enumeration_failure_nonfatal (env : Env) (sL : SourceLayer)
    (src : SourceFeature) (tL : TargetLayer) (d : ℚ) (st : AState)
    (e : String)
    (hq : env.indexQuery d src.sid tL.layerId = .error e) :
    find_features_in_buffer env sL src tL d st.processed_features =
      ([], st.processed_features) ∧
    layerStep env sL src d st tL = st := by
  obtain ⟨proc, results⟩ := st
  exact ⟨find_eq_of_error proc hq, by simp [layerStep, find_eq_of_error _ hq]⟩

/-- C7: a target feature with null/empty geometry is skipped for the whole
run: its key never enters the Processed-Set and no Match Record is emitted
for it, with no error raised. -/
theorem C7_null_geometry_skipped (env : Env) (sL : SourceLayer)
    (sources : List SourceFeature) (targets : List TargetLayer)
    (distances : List ℚ) (hL : LayersOK targets)
    (tl : TargetLayer) (htl : tl ∈ targets) (fid : Nat) (tf : TargetFeature)
    (hf : getFeature tl fid = some tf) (hg : tf.geom = none) :
    procLookup
      (run_analysis env sL sources targets distances).processed_features
      (tl.layerId, fid) = none ∧
    ∀ r ∈ (run_analysis env sL sources targets distances).results,
      ¬(r.target_layer = tl.name ∧ r.target_id = fid) := by
  have hRI := @run_analysis_inv env sL sources targets distances hL
  refine ⟨hRI.nullk tl htl fid tf hf hg, ?_⟩
  intro r hr ⟨hnm, htid⟩
  obtain ⟨tl0, h1, h2, h3, _, _, _⟩ := hRI.recs r hr
  have hid : tl0.layerId = tl.layerId := hL.2 tl0 h1 tl htl (h2.trans hnm)
  rw [hid, htid] at h3
  rw [hRI.nullk tl htl fid tf hf hg] at h3
  exact Option.noConfusion h3

/-- Two consecutive matcher runs on the same inputs, each started from the
fresh constructor state (a new ProximityAnalyzer instance), as produced by
`run_analysis`. -/
def run_twice (env : Env) (sL : SourceLayer) (sources : List SourceFeature)
    (targets : List TargetLayer) (distances : List ℚ) :
    List MatchRecord × List MatchRecord :=
  let first := (run_analysis env sL sources targets distances).results
  let second := (run_analysis env sL sources targets distances).results
  (first, second)

/-- C8: the matcher is idempotent across runs: running it twice on identical
unchanged inputs yields identical Match Record collections, because each run
begins from the freshly-initialised analyzer state and the matcher is a
deterministic function of its inputs. -/
theorem C8_idempotent_runs (env : Env) (sL : SourceLayer)
    (sources : List SourceFeature) (targets : List TargetLayer)
    (distances : List ℚ) :
    (run_twice env sL sources targets distances).1 =
      (run_twice env sL sources targets distances).2 ∧
    List.Perm (run_twice env sL sources targets distances).1
      (run_twice env sL sources targets distances).2 :=
  ⟨rfl, List.Perm.refl _⟩

/-- C9: the Processed-Set grows monotonically through a run and never
shrinks — every binding present after any sorted prefix of the bands is
still present, with the same band value, at the end of the run — and no key
is ever bound twice. -/
theorem C9_processed_set_monotone (env : Env) (sL : SourceLayer)
    (sources : List SourceFeature) (targets : List TargetLayer)
    (distances : List ℚ) (l1 l2 : List ℚ)
    (hsplit : List.insertionSort (fun a b => a ≤ b) distances = l1 ++ l2)
    (k : ProcKey) (v : ℚ)
    (hv : procLookup
      (processBands env sL sources targets l1 initState).processed_features
      k = some v) :
    procLookup
      (run_analysis env sL sources targets distances).processed_features k =
      some v ∧
    ((run_analysis env sL sources targets
      distances).processed_features.map Prod.fst).Nodup := by
  constructor
  · rw [run_analysis, hsplit, processBands_append]
    exact processBands_proc_mono l2 _ hv
  · rw [run_analysis]
    exact processBands_keys_nodup _ initState (by simp [initState])

/-- C10: a candidate that intersects the buffer at band d but whose measured
distance strictly exceeds d is rejected without touching the Processed-Set
and without emitting a record, so it stays eligible: a later invocation at a
band large enough for its distance emits its record. -/
theorem C10_rejected_candidate_stays_eligible (env : Env) (sL : SourceLayer)
    (src : SourceFeature) (tL : TargetLayer) (d d' : ℚ) (proc : ProcMap)
    (cands cands' : List Nat) (fid : Nat) (tf : TargetFeature) (g : String)
    (hq : env.indexQuery d src.sid tL.layerId = .ok cands)
    (hmem : fid ∈ cands) (hf : getFeature tL fid = some tf)
    (hg : tf.geom = some g)
    (hi : env.intersects d src.sid tL.layerId fid = true)
    (hgt : d < measureDistance env sL tL src.sid fid)
    (hq' : env.indexQuery d' src.sid tL.layerId = .ok cands')
    (hmem' : fid ∈ cands')
    (hi' : env.intersects d' src.sid tL.layerId fid = true)
    (hd' : measureDistance env sL tL src.sid fid ≤ d') :
    procLookup (find_features_in_buffer env sL src tL d proc).2
        (tL.layerId, fid) = procLookup proc (tL.layerId, fid) ∧
    (∀ r ∈ (find_features_in_buffer env sL src tL d proc).1,
      r.target_id ≠ fid) ∧
    (procLookup proc (tL.layerId, fid) = none →
      recordFor env sL src tL d' tf g ∈
        (find_features_in_buffer env sL src tL d'
          (find_features_in_buffer env sL src tL d proc).2).1) := by
  rw [find_eq_of_ok proc hq]
  have hskip : ∀ tf2, getFeature tL fid = some tf2 →
      tf2.geom = none ∨ env.intersects d src.sid tL.layerId fid = false ∨
      d < measureDistance env sL tL src.sid fid :=
    fun tf2 _ => Or.inr (Or.inr hgt)
  obtain ⟨ha, hb⟩ := findLoop_skipkey cands [] proc fid hskip
  refine ⟨ha, ?_, ?_⟩
  · intro r hr
    rcases hb r hr with h | h
    · exact absurd h (List.not_mem_nil r)
    · exact h
  · intro hkey
    have hkey2 : procLookup (findLoop env sL src tL d cands ([], proc)).2
        (tL.layerId, fid) = none := ha.trans hkey
    rw [find_eq_of_ok _ hq']
    exact findLoop_emit cands' _ fid tf g hmem' hf hg hkey2 hi' hd'

/-! ### Concrete scenario instances and witnesses -/

/-- Scenario from the spec (Scenario B): one target feature at measured
distance 50 from the single source; the buffer of radius d reaches it
exactly when 50 ≤ d. -/
def envW : Env :=
  { indexQuery := fun _ _ _ => .ok [1]
    intersects := fun dd _ _ _ => decide ((50 : ℚ) ≤ dd)
    planarDistance := fun _ _ _ => .ok 50
    ellipsoidalDistance := fun _ _ _ => .ok 50 }

def sLW : SourceLayer := ⟨"sources", true⟩

def tfW : TargetFeature := ⟨1, some "PT", []⟩

def tlW : TargetLayer := ⟨"L1", "targets", true, [tfW]⟩

def srcW : SourceFeature := ⟨0⟩

/-- Scenario C of the spec: one target feature at distance 500 from either
of two sources; band 600 captures it from both. -/
def envC1s : Env :=
  { indexQuery := fun _ _ _ => .ok [1]
    intersects := fun dd _ _ _ => decide ((500 : ℚ) ≤ dd)
    planarDistance := fun _ _ _ => .ok 500
    ellipsoidalDistance := fun _ _ _ => .ok 500 }

theorem C1_witness :
    List.Pairwise
      (fun r r' => ¬(r.target_layer = r'.target_layer ∧
        r.target_id = r'.target_id))
      (run_analysis envC1s sLW [⟨0⟩, ⟨1⟩] [tlW] [600]).results :=
  C1_at_most_one_record_per_target envC1s sLW [⟨0⟩, ⟨1⟩] [tlW] [600]
    ⟨by decide, by decide⟩

/-- The record the Scenario B run emits: band 100, distance 50. -/
def recW : MatchRecord := recordFor envW sLW srcW tlW 100 tfW "PT"

theorem C2_witness :
    recW.buffer_distance ∈ ([500, 100] : List ℚ) ∧
    (∃ s ∈ [srcW],
      qualifies envW sLW recW.buffer_distance s tlW recW.target_id) ∧
    (∀ d ∈ ([500, 100] : List ℚ),
      (∃ s ∈ [srcW], qualifies envW sLW d s tlW recW.target_id) →
      recW.buffer_distance ≤ d) :=
  C2_record_carries_smallest_band envW sLW [srcW] [tlW] [500, 100]
    ⟨by decide, by decide⟩ recW (by decide) tlW (by decide) rfl

theorem C3_witness :
    (∀ r ∈ (run_analysis envW sLW [srcW] [tlW] [500, 100]).results,
      r.distance ≤ r.buffer_distance) ∧
    (∃ r ∈ (find_features_in_buffer envW sLW srcW tlW 50 []).1,
      r.target_id = 1 ∧ r.distance = 50 ∧ r.buffer_distance = 50) :=
  C3_distance_le_band_inclusive envW sLW [srcW] [tlW] [500, 100]
    ⟨by decide, by decide⟩ srcW tlW 50 [] [1] 1 tfW "PT"
    rfl (by decide) (by decide) rfl rfl (by decide) rfl

/-- Distance oracle giving different planar (7) and ellipsoidal (5) answers,
to separate the two measurement paths. -/
def envC4s : Env :=
  { indexQuery := fun _ _ _ => .ok [1]
    intersects := fun _ _ _ _ => true
    planarDistance := fun _ _ _ => .ok 7
    ellipsoidalDistance := fun _ _ _ => .ok 5 }

theorem C4_witness :
    measureDistance envC4s sLW tlW 0 1 =
      if sLW.isPointGeom || tlW.isPointGeom then 5 else 7 :=
  C4_distance_method envC4s sLW tlW 0 1 7 5 rfl rfl

/-- Scenario where the distance measurement raises. -/
def envC5s : Env :=
  { indexQuery := fun _ _ _ => .ok [1]
    intersects := fun _ _ _ _ => true
    planarDistance := fun _ _ _ => .error "geometry failure"
    ellipsoidalDistance := fun _ _ _ => .ok 5 }

theorem C5_witness :
    measureDistance envC5s sLW tlW srcW.sid 1 = 0 ∧
    (∃ r ∈ (find_features_in_buffer envC5s sLW srcW tlW 100 []).1,
      r.target_id = 1 ∧ r.distance = 0 ∧ r.buffer_distance = 100) ∧
    procLookup (find_features_in_buffer envC5s sLW srcW tlW 100 []).2
      (tlW.layerId, 1) = some 100 :=
  C5_measurement_error_matches_with_zero envC5s sLW srcW tlW 100 [] [1] 1
    tfW "PT" "geometry failure" rfl (by decide) (by decide) rfl rfl
    (by decide) rfl (by decide)

/-- Scenario where the spatial-index enumeration raises. -/
def envC6s : Env :=
  { indexQuery := fun _ _ _ => .error "index enumeration failure"
    intersects := fun _ _ _ _ => true
    planarDistance := fun _ _ _ => .ok 0
    ellipsoidalDistance := fun _ _ _ => .ok 0 }

theorem C6_witness :
    find_features_in_buffer envC6s sLW srcW tlW 100
        initState.processed_features = ([], initState.processed_features) ∧
    layerStep envC6s sLW srcW 100 initState tlW = initState :=
  C6_enumeration_failure_nonfatal envC6s sLW srcW tlW 100 initState
    "index enumeration failure" rfl

/-- Scenario D of the spec: a target feature with null geometry. -/
def tfN : TargetFeature := ⟨2, none, []⟩

def tlN : TargetLayer := ⟨"L2", "nulls", true, [tfN]⟩

theorem C7_witness :
    procLookup
      (run_analysis envW sLW [srcW] [tlN] [100, 500]).processed_features
      (tlN.layerId, 2) = none ∧
    ∀ r ∈ (run_analysis envW sLW [srcW] [tlN] [100, 500]).results,
      ¬(r.target_layer = tlN.name ∧ r.target_id = 2) :=
  C7_null_geometry_skipped envW sLW [srcW] [tlN] [100, 500]
    ⟨by decide, by decide⟩ tlN (by decide) 2 tfN (by decide) rfl

theorem C9_witness :
    procLookup
      (run_analysis envW sLW [srcW] [tlW] [500, 100]).processed_features
      (("L1", 1) : ProcKey) = some 100 ∧
    ((run_analysis envW sLW [srcW] [tlW]
      [500, 100]).processed_features.map Prod.fst).Nodup :=
  C9_processed_set_monotone envW sLW [srcW] [tlW] [500, 100] [100] [500]
    (by decide) ("L1", 1) 100 (by decide)

/-- Scenario where the target sits at distance 700: rejected at band 600
despite a coarse intersection test, then captured at band 800. -/
def envC10s : Env :=
  { indexQuery := fun _ _ _ => .ok [1]
    intersects := fun _ _ _ _ => true
    planarDistance := fun _ _ _ => .ok 700
    ellipsoidalDistance := fun _ _ _ => .ok 700 }

theorem C10_witness :
    procLookup (find_features_in_buffer envC10s sLW srcW tlW 600 []).2
        (tlW.layerId, 1) = procLookup [] (tlW.layerId, 1) ∧
    (∀ r ∈ (find_features_in_buffer envC10s sLW srcW tlW 600 []).1,
      r.target_id ≠ 1) ∧
    (procLookup ([] : ProcMap) (tlW.layerId, 1) = none →
      recordFor envC10s sLW srcW tlW 800 tfW "PT" ∈
        (find_features_in_buffer envC10s sLW srcW tlW 800
          (find_features_in_buffer envC10s sLW srcW tlW 600 []).2).1) :=
  C10_rejected_candidate_stays_eligible envC10s sLW srcW tlW 600 800 []
    [1] [1] 1 tfW "PT" rfl (by decide) (by decide) rfl rfl (by decide)
    rfl (by decide) rfl (by decide)
